import Mathlib

/-!
# Verification of the grpcweb bridge (saracen/grpcweb)

A shallow embedding of `grpcweb.go` — a gRPC-Web ⇄ gRPC bridge — together
with proofs about its request classification, request transcoding, response
writing, base64 text encoding, and trailer-frame emission.

Modelling conventions:
* Go strings are byte sequences; HTTP header names and values are ASCII, so
  we model them as Lean `String`s where each `Char` stands for one byte.
* `http.Header` (a Go `map[string][]string`) is modelled as an association
  list with pairwise-distinct keys; the `Get`/`Set`/`Add`/`Del` accessors
  canonicalize keys exactly as Go's `textproto.CanonicalMIMEHeaderKey` does,
  and `Header.Write` sorts entries by key exactly as `net/http` does.
* Byte values are `Nat`s; arithmetic that Go performs on fixed-width
  integers is made explicit with `% 256` / `% 2^32`.
* `encoding/base64` (`StdEncoding`) is Go standard library code invoked by
  the bridge; it is embedded here from its documented RFC 4648 behaviour.
-/

namespace Grpcweb

/-! ## Content-type constants (grpcweb.go lines 13-19) -/

def ContentTypeGRPC : String := "application/grpc"
def ContentTypeGRPCWeb : String := "application/grpc-web"
def ContentTypeGRPCWebProto : String := "application/grpc-web+proto"
def ContentTypeGRPCWebText : String := "application/grpc-web-text"
def ContentTypeGRPCWebTextProto : String := "application/grpc-web-text+proto"

def headerContentType : String := "content-type"
def headerContentLength : String := "content-length"
def headerTE : String := "te"
def headerGRPCAcceptEncoding : String := "grpc-accept-encoding"
def headerAccept : String := "accept"
def headerTrailer : String := "trailer"

/-! ## Header model (Go `net/http.Header` over `net/textproto`) -/

/-- Valid header-field key bytes, per Go `net/textproto`'s `isTokenTable`:
letters, digits, and `!#$%&'*+-.^_`|~`. -/
def validHeaderFieldChar (c : Char) : Bool :=
  c.isAlpha || c.isDigit ||
    c = '!' || c = '#' || c = '$' || c = '%' || c = '&' || c = Char.ofNat 39 ||
    c = '*' || c = '+' || c = '-' || c = '.' || c = Char.ofNat 94 ||
    c = '_' || c = Char.ofNat 96 || c = '|' || c = Char.ofNat 126

/-- The casing pass of `textproto.CanonicalMIMEHeaderKey`: uppercase the
first letter and every letter following a `-`, lowercase the rest. -/
def canonicalCase : Bool → List Char → List Char
  | _, [] => []
  | upper, c :: rest =>
    let c2 := if upper then c.toUpper else c.toLower
    c2 :: canonicalCase (c2 = '-') rest

/-- Go `textproto.CanonicalMIMEHeaderKey`: if any byte is not a valid
header-field byte the key is returned unchanged, otherwise it is re-cased
canonically (`content-type` ↦ `Content-Type`). -/
def canonicalKey (s : String) : String :=
  if s.data.all validHeaderFieldChar then ⟨canonicalCase true s.data⟩ else s

/-- Go `strings.ToLower` on the ASCII header names the bridge compares. -/
def strToLower (s : String) : String := ⟨s.data.map Char.toLower⟩

/-- Go's byte-wise string `<`, on the modelled strings (one `Char` = one
byte): lexicographic comparison of the byte values. -/
def charListLt : List Char → List Char → Bool
  | [], [] => false
  | [], _ :: _ => true
  | _ :: _, [] => false
  | a :: as, b :: bs =>
    if a.toNat < b.toNat then true
    else if b.toNat < a.toNat then false
    else charListLt as bs

def strLt (a b : String) : Bool := charListLt a.data b.data

/-- A Go `http.Header`: map from (canonicalized-on-access) keys to value
lists, modelled as an association list. Well-formed states have
pairwise-distinct keys (a Go map cannot hold a key twice). -/
abbrev Header := List (String × List String)

/-- The comes-before-or-equal relation `http.Header`'s key sort uses:
entry `a` need not move after `b` unless `b`'s key is strictly smaller. -/
def keyLE (a b : String × List String) : Prop := strLt b.1 a.1 = false

instance : DecidableRel keyLE := fun a b => instDecidableEqBool (strLt b.1 a.1) false

/-- Go `http.Header.Get`: first value under the canonicalized key, or `""`. -/
def headerGet (h : Header) (key : String) : String :=
  match h.find? (fun kv => kv.1 = canonicalKey key) with
  | some (_, v :: _) => v
  | _ => ""

/-- Replace the value list stored under canonical key `ck`, inserting the
key if absent (helper for `headerSet`/`headerAdd`). -/
def headerPut (h : Header) (ck : String) (vs : List String) : Header :=
  match h with
  | [] => [(ck, vs)]
  | (k, old) :: rest =>
    if k = ck then (ck, vs) :: rest else (k, old) :: headerPut rest ck vs

/-- Go `http.Header.Set`: store exactly one value under the canonical key. -/
def headerSet (h : Header) (key val : String) : Header :=
  headerPut h (canonicalKey key) [val]

/-- Go `http.Header.Add`: append a value under the canonical key. -/
def headerAdd (h : Header) (key val : String) : Header :=
  let ck := canonicalKey key
  match h.find? (fun kv => kv.1 = ck) with
  | some (_, old) => headerPut h ck (old ++ [val])
  | none => headerPut h ck [val]

/-- Go `http.Header.Del`: remove the canonical key. -/
def headerDel (h : Header) (key : String) : Header :=
  h.filter (fun kv => ¬ kv.1 = canonicalKey key)

/-! ## Classifiers (grpcweb.go lines 133-151) -/

/-- The request envelope: protocol version fields, header collection, and
body stream. The body is an opaque stream optionally wrapped by the
bridge's base64-decoding `bodyCloser`. -/
inductive Body where
  /-- The original body stream handed in by the transport, identified
  opaquely by its byte contents. -/
  | stream (bytes : List Nat)
  /-- Go `bodyCloser{base64.NewDecoder(base64.StdEncoding, inner), inner}`:
  a streaming base64 decoder reading from `inner`, whose `Close` closes
  `inner`. -/
  | b64Decoder (inner : Body)
deriving DecidableEq, Repr

structure Request where
  protoMajor : Nat
  protoMinor : Nat
  header : Header
  body : Body
deriving DecidableEq, Repr

/-- Go `IsGRPCWebRequest` (lines 134-146): switch on the content-type
header against the four gRPC-Web tokens. -/
def IsGRPCWebRequest (req : Request) : Bool :=
  let ct := headerGet req.header headerContentType
  if ct = ContentTypeGRPCWeb then true
  else if ct = ContentTypeGRPCWebProto then true
  else if ct = ContentTypeGRPCWebText then true
  else if ct = ContentTypeGRPCWebTextProto then true
  else false

/-- Go `strings.HasPrefix`, byte-wise on the modelled strings. -/
def strStartsWith (s pre : String) : Bool := pre.data.isPrefixOf s.data

/-- Go `IsGRPCRequest` (lines 149-151): HTTP/2 and a content-type with the
native-gRPC prefix. -/
def IsGRPCRequest (req : Request) : Bool :=
  req.protoMajor = 2 &&
    strStartsWith (headerGet req.header headerContentType) ContentTypeGRPC

/-- Which of the three injected handlers `RootHandler` (lines 48-65)
dispatches a request to. -/
inductive Route where
  | grpcWeb
  | grpc
  | fallback
deriving DecidableEq, Repr

/-- The dispatch decision of `RootHandler`'s switch: gRPC-Web first, then
native gRPC, then the fallback. -/
def rootRoute (req : Request) : Route :=
  if IsGRPCWebRequest req then .grpcWeb
  else if IsGRPCRequest req then .grpc
  else .fallback

/-! ## Base64 (Go `encoding/base64`, `StdEncoding`)

The bridge installs `base64.NewDecoder(base64.StdEncoding, body)` on the
request path and `base64.NewEncoder(base64.StdEncoding, wrapped)` on the
response path. `encoding/base64` is Go standard library code (RFC 4648
standard alphabet, `=` padding, non-strict decoding); it is embedded here
as whole-stream functions over byte lists. -/

/-- The standard base64 alphabet: sextet value `v < 64` to ASCII byte. -/
def b64char (v : Nat) : Nat :=
  if v < 26 then 65 + v
  else if v < 52 then 97 + (v - 26)
  else if v < 62 then 48 + (v - 52)
  else if v = 62 then 43
  else 47

/-- Inverse alphabet: ASCII byte to sextet value, `none` for non-alphabet
bytes (including the pad byte `=` = 61). -/
def b64val (c : Nat) : Option Nat :=
  if 65 ≤ c ∧ c ≤ 90 then some (c - 65)
  else if 97 ≤ c ∧ c ≤ 122 then some (c - 97 + 26)
  else if 48 ≤ c ∧ c ≤ 57 then some (c - 48 + 52)
  else if c = 43 then some 62
  else if c = 47 then some 63
  else none

/-- RFC 4648 standard encoding with padding: three input bytes map to four
alphabet bytes; a final one- or two-byte remainder maps to a `==`- or
`=`-padded quantum. -/
def encodeB64 : List Nat → List Nat
  | a :: b :: c :: rest =>
    b64char (a / 4) :: b64char (a % 4 * 16 + b / 16) ::
      b64char (b % 16 * 4 + c / 64) :: b64char (c % 64) :: encodeB64 rest
  | [a, b] => [b64char (a / 4), b64char (a % 4 * 16 + b / 16), b64char (b % 16 * 4), 61]
  | [a] => [b64char (a / 4), b64char (a % 4 * 16), 61, 61]
  | [] => []

/-- Base64 decoding as Go's non-strict decoder accepts it: four-byte
quanta, with `=` padding only in the final quantum; anything else
(truncated input, misplaced padding, non-alphabet bytes) is an error. -/
def decodeB64 : List Nat → Option (List Nat)
  | [] => some []
  | c1 :: c2 :: c3 :: c4 :: rest =>
    match b64val c1, b64val c2 with
    | some s1, some s2 =>
      if c3 = 61 then
        if c4 = 61 ∧ rest = [] then some [s1 * 4 + s2 / 16] else none
      else
        match b64val c3 with
        | some s3 =>
          if c4 = 61 then
            if rest = [] then some [s1 * 4 + s2 / 16, s2 % 16 * 16 + s3 / 4] else none
          else
            match b64val c4 with
            | some s4 =>
              (decodeB64 rest).map
                (fun ds => (s1 * 4 + s2 / 16) :: (s2 % 16 * 16 + s3 / 4) ::
                  (s3 % 4 * 64 + s4) :: ds)
            | none => none
        | none => none
    | _, _ => none
  | _ => none

/-- What `Close` on a request body reaches: `bodyCloser.Close` (lines
158-160) forwards to the wrapped original stream's `Close`, through any
number of decoder wrappers. -/
def bodyCloseTarget : Body → List Nat
  | .stream bytes => bytes
  | .b64Decoder inner => bodyCloseTarget inner

/-- The bytes the wrapped handler reads from a request body: the raw
stream, or the streaming base64 decode of it (`none` models a read error
surfaced by the decoder). -/
def bodyReadBytes : Body → Option (List Nat)
  | .stream bytes => some bytes
  | .b64Decoder inner => (bodyReadBytes inner).bind decodeB64

/-! ## Request transcoding (grpcweb.go lines 73-106) -/

/-- Result of the request-transcoding phase of `ServeHTTP`: the mutated
request handed to the wrapped handler, plus the response content-type
chosen from the accept header. -/
structure TranscodeResult where
  req : Request
  contentType : String
deriving Repr

/-- Lines 73-106 of `ServeHTTP`, in source order: force HTTP/2, delete
content-length, read text-vs-binary input mode from content-type, rewrite
content-type to `application/grpc`, read text-vs-binary output mode from
accept, set `te` and `grpc-accept-encoding`, wrap a text body in a base64
decoder, and pick the response content-type. -/
def transcodeRequest (req0 : Request) : TranscodeResult :=
  let req1 : Request := { req0 with protoMajor := 2, protoMinor := 0 }
  let req2 : Request := { req1 with header := headerDel req1.header headerContentLength }
  let ctIn := headerGet req2.header headerContentType
  let isTextRequest : Bool :=
    ctIn = ContentTypeGRPCWebText || ctIn = ContentTypeGRPCWebTextProto
  let req3 : Request := { req2 with header := headerSet req2.header headerContentType ContentTypeGRPC }
  let accept := headerGet req3.header headerAccept
  let isTextResponse : Bool :=
    accept = ContentTypeGRPCWebText || accept = ContentTypeGRPCWebTextProto
  let req4 : Request := { req3 with header := headerSet req3.header headerTE "trailers" }
  let req5 : Request := { req4 with
    header := headerSet req4.header headerGRPCAcceptEncoding "identity,deflate,gzip" }
  let req6 : Request :=
    if isTextRequest then { req5 with body := .b64Decoder req5.body } else req5
  let contentType :=
    if isTextResponse then ContentTypeGRPCWebTextProto else ContentTypeGRPCWebProto
  { req := req6, contentType := contentType }

/-! ## Response writer (grpcweb.go lines 162-198) -/

/-- The `encoder` field of `gRPCWebResponseWriter`: `nil` before the first
write; afterwards either the wrapped sink itself (binary mode) or a
streaming base64 encoder with its ≤2-byte internal buffer (text mode). -/
inductive EncState where
  | uninit
  | binary
  | text (buf : List Nat)
deriving DecidableEq, Repr

/-- State visible through a `gRPCWebResponseWriter` and its wrapped sink:
the response header map, the lazy encoder, the bytes that reached the
underlying transport (`out`), the status code recorded by the transport
(first `WriteHeader` wins, as in `net/http`), and — as a ghost field — the
bytes passed through `gRPCWebResponseWriter.Write` before any encoding
(`logical`). -/
structure WState where
  headers : Header
  enc : EncState
  out : List Nat
  status : Option Nat
  logical : List Nat
deriving Repr

/-- One `Write` on Go's streaming base64 encoder: encode every complete
3-byte group of buffer-plus-input, keep the remainder buffered. Returns
(bytes emitted downstream, new buffer). -/
def textEncWrite (buf p : List Nat) : List Nat × List Nat :=
  let all := buf ++ p
  let keep := all.length % 3
  (encodeB64 (all.take (all.length - keep)), all.drop (all.length - keep))

/-- `gRPCWebResponseWriter.Write` (lines 172-184): on the first write, set
the response content-type and install the encoder (base64 exactly when the
chosen content-type is the text token); then forward through the encoder. -/
def writerWrite (ct : String) (st0 : WState) (p : List Nat) : WState :=
  let st := { st0 with logical := st0.logical ++ p }
  match st.enc with
  | .uninit =>
    let hs := headerSet st.headers headerContentType ct
    if ct = ContentTypeGRPCWebTextProto then
      let ep := textEncWrite [] p
      { st with headers := hs, enc := .text ep.2, out := st.out ++ ep.1 }
    else
      { st with headers := hs, enc := .binary, out := st.out ++ p }
  | .binary => { st with out := st.out ++ p }
  | .text buf =>
    let ep := textEncWrite buf p
    { st with enc := .text ep.2, out := st.out ++ ep.1 }

/-- `gRPCWebResponseWriter.WriteHeader` (lines 186-189): re-apply the
content-type header, then forward the status code to the wrapped sink. -/
def writerWriteHeader (ct : String) (st : WState) (code : Nat) : WState :=
  { st with headers := headerSet st.headers headerContentType ct,
            status := some (st.status.getD code) }

/-- `gRPCWebResponseWriter.Flush` (lines 191-198): when the encoder is an
`io.WriteCloser` — only the base64 text encoder is — close it (emitting the
final padded quantum) and reset to `nil`; the wrapped sink is then flushed
(transport-level, no state change here). -/
def writerFlush (st : WState) : WState :=
  match st.enc with
  | .text buf => { st with enc := .uninit, out := st.out ++ encodeB64 buf }
  | e => { st with enc := e }

/-- An operation the wrapped handler performs against the response writer
it was given: body writes, status writes, flushes, and direct mutation of
the header map obtained from `Header()` (which `gRPCWebResponseWriter`
shares with the wrapped sink). -/
inductive RespOp where
  | write (p : List Nat)
  | writeHeader (code : Nat)
  | flush
  | setHeader (key val : String)
  | addHeader (key val : String)
  | delHeader (key : String)
deriving Repr

def applyOp (ct : String) (st : WState) : RespOp → WState
  | .write p => writerWrite ct st p
  | .writeHeader code => writerWriteHeader ct st code
  | .flush => writerFlush st
  | .setHeader k v => { st with headers := headerSet st.headers k v }
  | .addHeader k v => { st with headers := headerAdd st.headers k v }
  | .delHeader k => { st with headers := headerDel st.headers k }

def applyOps (ct : String) (st : WState) (ops : List RespOp) : WState :=
  ops.foldl (applyOp ct) st

/-! ## Trailer extraction and framing (grpcweb.go lines 109-131) -/

/-- The trailer-name list of lines 110-123: the value list of the first
header entry whose name, lowercased, is `trailer`; each value names one
trailer header. -/
def declaredTrailerNames (h : Header) : List String :=
  match h.find? (fun kv => strToLower kv.1 = headerTrailer) with
  | none => []
  | some (_, names) => names

/-- One iteration of the trailer loop (lines 113-120): look the declared
name up in the response headers; `Set` it into the trailer map unless its
value is empty. -/
def trailerFoldStep (hd : Header) (acc : Header) (name : String) : Header :=
  let field := headerGet hd name
  if field = "" then acc else headerSet acc name field

/-- Lines 110-123: find the header named `trailer` (case-insensitively, via
`strings.ToLower`); each of its values names a trailer header. Every named
header with a non-empty `Get` value is `Set` into a fresh header map;
empty-or-missing ones are skipped. -/
def extractTrailers (h : Header) : Header :=
  (declaredTrailerNames h).foldl (trailerFoldStep h) []

/-- Value sanitization applied by Go's `http.Header.Write`: CR and LF
become spaces, then ASCII whitespace is trimmed from both ends. -/
def cleanHeaderValue (v : String) : String :=
  let isSp : Char → Bool := fun c => c = ' ' || c = Char.ofNat 9 || c = Char.ofNat 10 || c = Char.ofNat 13
  let repl := v.data.map (fun c => if c = Char.ofNat 13 || c = Char.ofNat 10 then ' ' else c)
  ⟨((repl.dropWhile isSp).reverse.dropWhile isSp).reverse⟩

/-- Go's `http.Header.sortedKeyValues`: entries sorted by key (byte-wise
string order; keys of a well-formed header are distinct, so the order is
unambiguous). -/
def sortedKeyValues (h : Header) : Header :=
  List.insertionSort keyLE h

/-- The lines `http.Header.Write` produces: for each entry in sorted key
order, one `Key: value\r\n` line per stored value. -/
def headerWriteLines (h : Header) : List String :=
  (sortedKeyValues h).flatMap
    (fun kv => kv.2.map (fun v => kv.1 ++ ": " ++ cleanHeaderValue v ++ "\r\n"))

/-- `trailers.Write(buf)` (line 126): the serialized trailer block. -/
def trailerBlockString (h : Header) : String :=
  String.join (headerWriteLines (extractTrailers h))

/-- Bytes of an ASCII string (one `Char` = one byte in this model). -/
def strBytes (s : String) : List Nat := s.data.map Char.toNat

/-- The serialized trailer block as bytes. -/
def trailerBlock (h : Header) : List Nat := strBytes (trailerBlockString h)

/-- Big-endian bytes of `uint32(n)`, as `binary.Write(resp,
binary.BigEndian, uint32(buf.Len()))` produces (line 129); the `% 256`
reductions realize the truncation to 32 bits. -/
def uint32be (n : Nat) : List Nat :=
  [n / 2 ^ 24 % 256, n / 2 ^ 16 % 256, n / 2 ^ 8 % 256, n % 256]

/-- Lines 125-130: after the handler returns, serialize the extracted
trailers and write the trailer frame — marker byte `0x80 = 128`, 4-byte
big-endian length, block bytes — through the same response writer used
for data. (`buf.WriteTo` performs no write call when the block is empty;
writing `[]` with the encoder already installed is state-identical.) -/
def emitTrailers (ct : String) (st : WState) : WState :=
  let block := trailerBlock st.headers
  let st1 := writerWrite ct st [128]
  let st2 := writerWrite ct st1 (uint32be block.length)
  writerWrite ct st2 block

/-! ## ServeHTTP (grpcweb.go lines 67-131) -/

/-- Outcome of `grpcWebHandler.ServeHTTP`: non-gRPC-Web requests pass
through to the wrapped handler untouched; gRPC-Web requests are transcoded,
served through the wrapping response writer, and finished with a trailer
frame. -/
inductive ServeResult where
  | passthrough (req : Request)
  | bridged (handlerReq : Request) (w : WState)
deriving Repr

/-- The response writer state before the handler runs: the transport's
header map, no encoder installed, nothing written. -/
def initialWState (h : Header) : WState :=
  { headers := h, enc := .uninit, out := [], status := none, logical := [] }

/-- `grpcWebHandler.ServeHTTP`. The wrapped handler is opaque: it is
modelled as the list of response-writer operations it performs, as a
function of the (transcoded) request it is given. `respHeaders` is the
header map of the transport's response writer. -/
def serveHTTP (req : Request) (handlerOps : Request → List RespOp)
    (respHeaders : Header) : ServeResult :=
  if IsGRPCWebRequest req then
    let t := transcodeRequest req
    let stH := applyOps t.contentType (initialWState respHeaders) (handlerOps t.req)
    .bridged t.req (emitTrailers t.contentType stH)
  else
    .passthrough req

/-- First value stored under an already-canonical key (`headerGet` after
key canonicalization). -/
def headerGetC (h : Header) (ck : String) : String :=
  match h.find? (fun kv => kv.1 = ck) with
  | some (_, v :: _) => v
  | _ => ""

/-- The value a big-endian byte string denotes. -/
def beValue (bs : List Nat) : Nat := bs.foldl (fun acc b => acc * 256 + b) 0

/-! ## Header lemmas -/

theorem headerGet_eq_getC (h : Header) (key : String) :
    headerGet h key = headerGetC h (canonicalKey key) := rfl

theorem find_headerPut_self (h : Header) (ck : String) (vs : List String) :
    (headerPut h ck vs).find? (fun kv => kv.1 = ck) = some (ck, vs) := by
  induction h with
  | nil => simp [headerPut]
  | cons kv rest ih =>
    by_cases hk : kv.1 = ck
    · simp [headerPut, hk]
    · simp [headerPut, hk, List.find?, ih]

theorem find_headerPut_other (h : Header) (ck : String) (vs : List String)
    (ck2 : String) (hne : ¬ ck2 = ck) :
    (headerPut h ck vs).find? (fun kv => kv.1 = ck2) = h.find? (fun kv => kv.1 = ck2) := by
  have hne2 : ¬ ck = ck2 := fun e => hne e.symm
  induction h with
  | nil => simp [headerPut, List.find?, hne2]
  | cons kv rest ih =>
    obtain ⟨k0, vs0⟩ := kv
    by_cases hk : k0 = ck
    · subst hk
      simp [headerPut, List.find?, hne2]
    · by_cases hk2 : k0 = ck2
      · simp [headerPut, hk, List.find?, hk2, hne]
      · simp [headerPut, hk, List.find?, hk2, ih]

theorem find_headerDel_other (h : Header) (k ck2 : String)
    (hne : ¬ ck2 = canonicalKey k) :
    (headerDel h k).find? (fun kv => kv.1 = ck2) = h.find? (fun kv => kv.1 = ck2) := by
  have hne2 : ¬ canonicalKey k = ck2 := fun e => hne e.symm
  induction h with
  | nil => simp [headerDel]
  | cons kv rest ih =>
    obtain ⟨k0, vs0⟩ := kv
    by_cases hk : k0 = canonicalKey k
    · simpa [headerDel, List.filter_cons, hk, List.find?, hne2] using ih
    · by_cases hk2 : k0 = ck2
      · simp [headerDel, List.filter_cons, hk, List.find?, hk2, hne]
      · simpa [headerDel, List.filter_cons, hk, List.find?, hk2] using ih

theorem headerGet_set_self (h : Header) (k v : String) :
    headerGet (headerSet h k v) k = v := by
  simp [headerGet, headerSet, find_headerPut_self]

theorem headerGet_set_other (h : Header) (k v k2 : String)
    (hne : ¬ canonicalKey k2 = canonicalKey k) :
    headerGet (headerSet h k v) k2 = headerGet h k2 := by
  unfold headerGet headerSet
  rw [find_headerPut_other _ _ _ _ hne]

theorem headerGet_del_other (h : Header) (k k2 : String)
    (hne : ¬ canonicalKey k2 = canonicalKey k) :
    headerGet (headerDel h k) k2 = headerGet h k2 := by
  unfold headerGet
  rw [find_headerDel_other _ _ _ hne]

theorem mem_headerPut_elim (h : Header) (ck : String) (vs : List String)
    (kv : String × List String) (hm : kv ∈ headerPut h ck vs) :
    kv ∈ h ∨ kv = (ck, vs) := by
  induction h with
  | nil => simp [headerPut] at hm; simp [hm]
  | cons kv0 rest ih =>
    by_cases hk : kv0.1 = ck
    · simp [headerPut, hk] at hm
      rcases hm with hm | hm
      · right; simp [hm]
      · left; simp [hm]
    · simp [headerPut, hk] at hm
      rcases hm with hm | hm
      · left; simp [hm]
      · rcases ih hm with h2 | h2
        · left; simp [h2]
        · right; exact h2

theorem isGRPCWebRequest_eq_true (req : Request) :
    IsGRPCWebRequest req = true ↔
      (headerGet req.header headerContentType = ContentTypeGRPCWeb ∨
       headerGet req.header headerContentType = ContentTypeGRPCWebProto ∨
       headerGet req.header headerContentType = ContentTypeGRPCWebText ∨
       headerGet req.header headerContentType = ContentTypeGRPCWebTextProto) := by
  unfold IsGRPCWebRequest
  dsimp only
  split_ifs with h1 h2 h3 h4 <;> simp_all

theorem isGRPCRequest_eq_true (req : Request) :
    IsGRPCRequest req = true ↔
      (req.protoMajor = 2 ∧
        strStartsWith (headerGet req.header headerContentType) ContentTypeGRPC = true) := by
  simp [IsGRPCRequest]

/-! ## C2: gRPC-Web classification -/

/-- C2: `IsGRPCWebRequest` returns true iff the request's content-type
header equals one of the four gRPC-Web tokens, and false otherwise. -/
theorem isGRPCWebRequest_iff (req : Request) :
    IsGRPCWebRequest req = true ↔
      (headerGet req.header headerContentType = ContentTypeGRPCWeb ∨
       headerGet req.header headerContentType = ContentTypeGRPCWebProto ∨
       headerGet req.header headerContentType = ContentTypeGRPCWebText ∨
       headerGet req.header headerContentType = ContentTypeGRPCWebTextProto) :=
  isGRPCWebRequest_eq_true req

/-! ## C3: native gRPC classification -/

/-- C3: `IsGRPCRequest` returns true iff the protocol major version is 2
and the content-type header starts with `application/grpc`; in particular
it is false whenever the major version is 1. -/
theorem isGRPCRequest_iff (req : Request) :
    (IsGRPCRequest req = true ↔
      (req.protoMajor = 2 ∧
        strStartsWith (headerGet req.header headerContentType) ContentTypeGRPC = true))
    ∧ (req.protoMajor = 1 → IsGRPCRequest req = false) := by
  refine ⟨isGRPCRequest_eq_true req, ?_⟩
  intro h1
  simp [IsGRPCRequest, h1]

/-- C3 witness: a concrete HTTP/1.1 request with native-gRPC content-type
is classified as not-gRPC by the theorem's second conjunct. -/
theorem isGRPCRequest_iff_witness :
    IsGRPCRequest ⟨1, 1, [("Content-Type", ["application/grpc"])], .stream []⟩ = false :=
  (isGRPCRequest_iff ⟨1, 1, [("Content-Type", ["application/grpc"])], .stream []⟩).2 rfl

/-! ## C4: the two classifications are not disjoint -/

/-- C4 counterexample: a request with protocol major version 2 and
content-type `application/grpc-web` satisfies `IsGRPCWebRequest` and
`IsGRPCRequest` simultaneously — every gRPC-Web token has the native
token `application/grpc` as a prefix, so the two classifications overlap
on HTTP/2 requests. -/
theorem both_classifiers_true_at_grpcweb_http2 :
    IsGRPCWebRequest
        ⟨2, 0, [("Content-Type", ["application/grpc-web"])], .stream []⟩ = true
    ∧ IsGRPCRequest
        ⟨2, 0, [("Content-Type", ["application/grpc-web"])], .stream []⟩ = true := by
  constructor <;> decide

/-- C4 (amended): `IsGRPCWebRequest` and `IsGRPCRequest` hold together
exactly when the protocol major version is 2 and the content-type is a
gRPC-Web token; `RootHandler` still dispatches every such request to the
gRPC-Web handler alone, because the gRPC-Web case is checked first. -/
theorem classifier_overlap_characterization (req : Request) :
    ((IsGRPCWebRequest req = true ∧ IsGRPCRequest req = true) ↔
      (req.protoMajor = 2 ∧ IsGRPCWebRequest req = true))
    ∧ (IsGRPCWebRequest req = true → rootRoute req = Route.grpcWeb) := by
  constructor
  · constructor
    · rintro ⟨hw, hg⟩
      exact ⟨((isGRPCRequest_eq_true req).mp hg).1, hw⟩
    · rintro ⟨hp, hw⟩
      refine ⟨hw, ((isGRPCRequest_eq_true req).mpr ⟨hp, ?_⟩)⟩
      rcases (isGRPCWebRequest_eq_true req).mp hw with h | h | h | h <;>
        rw [h] <;> decide
  · intro hw
    simp [rootRoute, hw]

/-- C4 witness: the amended characterization applied at the
counterexample request. -/
theorem classifier_overlap_characterization_witness :
    rootRoute ⟨2, 0, [("Content-Type", ["application/grpc-web"])], .stream []⟩
      = Route.grpcWeb :=
  (classifier_overlap_characterization
      ⟨2, 0, [("Content-Type", ["application/grpc-web"])], .stream []⟩).2
    (by decide)

/-! ## Transcoding lemmas -/

theorem transcode_header_eq (req : Request) :
    (transcodeRequest req).req.header =
      headerSet (headerSet (headerSet (headerDel req.header headerContentLength)
        headerContentType ContentTypeGRPC) headerTE "trailers")
        headerGRPCAcceptEncoding "identity,deflate,gzip" := by
  unfold transcodeRequest
  dsimp only
  split <;> rfl

theorem transcode_body_eq (req : Request) :
    (transcodeRequest req).req.body =
      (if headerGet req.header headerContentType = ContentTypeGRPCWebText ∨
          headerGet req.header headerContentType = ContentTypeGRPCWebTextProto
        then Body.b64Decoder req.body else req.body) := by
  have hct : headerGet (headerDel req.header headerContentLength) headerContentType
      = headerGet req.header headerContentType :=
    headerGet_del_other _ _ _ (by decide)
  unfold transcodeRequest
  dsimp only
  rw [hct]
  by_cases h1 : headerGet req.header headerContentType = ContentTypeGRPCWebText <;>
    by_cases h2 : headerGet req.header headerContentType = ContentTypeGRPCWebTextProto <;>
      simp [h1, h2]

theorem transcode_contentType_eq (req : Request) :
    (transcodeRequest req).contentType =
      (if headerGet req.header headerAccept = ContentTypeGRPCWebText ∨
          headerGet req.header headerAccept = ContentTypeGRPCWebTextProto
        then ContentTypeGRPCWebTextProto else ContentTypeGRPCWebProto) := by
  have hacc : headerGet (headerSet (headerDel req.header headerContentLength)
        headerContentType ContentTypeGRPC) headerAccept
      = headerGet req.header headerAccept := by
    rw [headerGet_set_other _ _ _ _ (by decide), headerGet_del_other _ _ _ (by decide)]
  unfold transcodeRequest
  dsimp only
  rw [hacc]
  by_cases h1 : headerGet req.header headerAccept = ContentTypeGRPCWebText <;>
    by_cases h2 : headerGet req.header headerAccept = ContentTypeGRPCWebTextProto <;>
      simp [h1, h2]

theorem mem_headerDel_key_ne (h : Header) (k : String)
    (kv : String × List String) (hm : kv ∈ headerDel h k) :
    ¬ kv.1 = canonicalKey k := by
  have := List.of_mem_filter hm
  simpa using this

/-! ## C5: request transcoding -/

/-- C5: for a gRPC-Web request, before the wrapped handler runs,
`ServeHTTP` forces the protocol version to 2.0, removes the
content-length header, rewrites content-type to `application/grpc`, sets
`te: trailers` and `grpc-accept-encoding: identity,deflate,gzip`, and —
exactly when the original content-type was a text token — replaces the
body with a streaming base64 decoder whose `Close` still closes the
original stream. -/
theorem transcode_request_transforms (req : Request)
    (_hweb : IsGRPCWebRequest req = true) :
    ((transcodeRequest req).req.protoMajor = 2) ∧
    ((transcodeRequest req).req.protoMinor = 0) ∧
    (∀ kv ∈ (transcodeRequest req).req.header, ¬ kv.1 = canonicalKey headerContentLength) ∧
    (headerGet (transcodeRequest req).req.header headerContentType = ContentTypeGRPC) ∧
    (headerGet (transcodeRequest req).req.header headerTE = "trailers") ∧
    (headerGet (transcodeRequest req).req.header headerGRPCAcceptEncoding
      = "identity,deflate,gzip") ∧
    ((transcodeRequest req).req.body =
      (if headerGet req.header headerContentType = ContentTypeGRPCWebText ∨
          headerGet req.header headerContentType = ContentTypeGRPCWebTextProto
        then Body.b64Decoder req.body else req.body)) ∧
    (bodyCloseTarget (transcodeRequest req).req.body = bodyCloseTarget req.body) := by
  refine ⟨?_, ?_, ?_, ?_, ?_, ?_, transcode_body_eq req, ?_⟩
  · unfold transcodeRequest; dsimp only; split <;> rfl
  · unfold transcodeRequest; dsimp only; split <;> rfl
  · intro kv hm
    rw [transcode_header_eq] at hm
    rcases mem_headerPut_elim _ _ _ _ hm with hm | he
    · rcases mem_headerPut_elim _ _ _ _ hm with hm | he
      · rcases mem_headerPut_elim _ _ _ _ hm with hm | he
        · exact mem_headerDel_key_ne _ _ _ hm
        · rw [he]; decide
      · rw [he]; decide
    · rw [he]; decide
  · rw [transcode_header_eq, headerGet_set_other _ _ _ _ (by decide),
      headerGet_set_other _ _ _ _ (by decide), headerGet_set_self]
  · rw [transcode_header_eq, headerGet_set_other _ _ _ _ (by decide), headerGet_set_self]
  · rw [transcode_header_eq, headerGet_set_self]
  · rw [transcode_body_eq]
    split
    · rfl
    · rfl

/-- C5 witness: the theorem applied to a concrete text-mode gRPC-Web
request: the body is wrapped in a base64 decoder. -/
theorem transcode_request_transforms_witness :
    (transcodeRequest
        ⟨1, 1, [("Content-Type", ["application/grpc-web-text"])], .stream [65]⟩).req.body
      = Body.b64Decoder (.stream [65]) := by
  have h := (transcode_request_transforms
      ⟨1, 1, [("Content-Type", ["application/grpc-web-text"])], .stream [65]⟩
      (by decide)).2.2.2.2.2.2.1
  rw [h]
  decide

/-! ## C6: output mode mirrors the accept header -/

theorem writerWrite_uninit_enc (ct : String) (st : WState) (p : List Nat)
    (henc : st.enc = EncState.uninit) :
    (writerWrite ct st p).enc =
      (if ct = ContentTypeGRPCWebTextProto then EncState.text (textEncWrite [] p).2
       else EncState.binary) := by
  unfold writerWrite
  rw [henc]
  dsimp only
  split <;> rfl

/-- C6: the response output encoding is text — the text content-type token
is selected and the first body write installs the streaming base64
encoder — iff the request's accept header equals one of the two text
tokens; and this is independent of the request's own content-type:
rewriting the content-type header to anything leaves the chosen output
mode unchanged. -/
theorem output_mode_matches_accept (req : Request) :
    (((transcodeRequest req).contentType = ContentTypeGRPCWebTextProto) ↔
      (headerGet req.header headerAccept = ContentTypeGRPCWebText ∨
       headerGet req.header headerAccept = ContentTypeGRPCWebTextProto))
    ∧ (∀ (hdrs : Header) (p : List Nat),
        ((writerWrite (transcodeRequest req).contentType (initialWState hdrs) p).enc
            = EncState.text (textEncWrite [] p).2
          ↔ (headerGet req.header headerAccept = ContentTypeGRPCWebText ∨
             headerGet req.header headerAccept = ContentTypeGRPCWebTextProto)))
    ∧ (∀ ct2 : String,
        (transcodeRequest
            { req with header := headerSet req.header headerContentType ct2 }).contentType
          = (transcodeRequest req).contentType) := by
  refine ⟨?_, ?_, ?_⟩
  · rw [transcode_contentType_eq]
    split
    · simp_all
    · simp_all [ContentTypeGRPCWebProto, ContentTypeGRPCWebTextProto]
  · intro hdrs p
    rw [writerWrite_uninit_enc _ _ _ rfl, transcode_contentType_eq]
    by_cases hacc : headerGet req.header headerAccept = ContentTypeGRPCWebText ∨
        headerGet req.header headerAccept = ContentTypeGRPCWebTextProto
    · rw [if_pos hacc, if_pos rfl]
      simp [hacc]
    · rw [if_neg hacc, if_neg (by decide)]
      simp [hacc]
  · intro ct2
    rw [transcode_contentType_eq, transcode_contentType_eq]
    have : headerGet (headerSet req.header headerContentType ct2) headerAccept
        = headerGet req.header headerAccept :=
      headerGet_set_other _ _ _ _ (by decide)
    simp only [this]

/-! ## C10: the response content-type is always an explicit-proto token -/

theorem writerWrite_uninit_headers (ct : String) (st : WState) (p : List Nat)
    (henc : st.enc = EncState.uninit) :
    (writerWrite ct st p).headers = headerSet st.headers headerContentType ct := by
  unfold writerWrite
  rw [henc]
  dsimp only
  split <;> rfl

/-- C10: the content-type the bridge selects for the response is
`application/grpc-web-text+proto` when the accept header is a text token
and `application/grpc-web+proto` otherwise — never one of the generic
tokens — and the first body write stamps exactly that token into the
response headers. -/
theorem response_content_type_explicit_proto (req : Request) :
    ((transcodeRequest req).contentType = ContentTypeGRPCWebProto ∨
     (transcodeRequest req).contentType = ContentTypeGRPCWebTextProto)
    ∧ ¬ (transcodeRequest req).contentType = ContentTypeGRPCWeb
    ∧ ¬ (transcodeRequest req).contentType = ContentTypeGRPCWebText
    ∧ ((transcodeRequest req).contentType = ContentTypeGRPCWebTextProto ↔
       (headerGet req.header headerAccept = ContentTypeGRPCWebText ∨
        headerGet req.header headerAccept = ContentTypeGRPCWebTextProto))
    ∧ (∀ (hdrs : Header) (p : List Nat),
        headerGet (writerWrite (transcodeRequest req).contentType
            (initialWState hdrs) p).headers headerContentType
          = (transcodeRequest req).contentType) := by
  rw [transcode_contentType_eq]
  refine ⟨?_, ?_, ?_, ?_, ?_⟩
  · split
    · right; rfl
    · left; rfl
  · split <;> decide
  · split <;> decide
  · split
    · simp_all
    · simp_all [ContentTypeGRPCWebProto, ContentTypeGRPCWebTextProto]
  · intro hdrs p
    rw [writerWrite_uninit_headers _ _ _ rfl, headerGet_set_self]

/-! ## C8: status writes never lose the content-type -/

theorem enc_after_writeHeaders (ct : String) (st : WState) (codes : List Nat) :
    (applyOps ct st (codes.map RespOp.writeHeader)).enc = st.enc := by
  induction codes generalizing st with
  | nil => rfl
  | cons c cs ih =>
    simpa [applyOps, applyOp, writerWriteHeader] using ih { st with
      headers := headerSet st.headers headerContentType ct,
      status := some (st.status.getD c) }

/-- C8: however many times the handler sets a status code before its first
body write, the response content-type header equals the selected gRPC-Web
token once body bytes are written: `WriteHeader` re-applies the header and
the first `Write` applies it again. -/
theorem status_writes_preserve_content_type (req : Request) (hdrs : Header)
    (codes : List Nat) (p : List Nat) :
    headerGet (applyOps (transcodeRequest req).contentType (initialWState hdrs)
        (codes.map RespOp.writeHeader ++ [RespOp.write p])).headers headerContentType
      = (transcodeRequest req).contentType := by
  rw [applyOps, List.foldl_append]
  have henc : (List.foldl (applyOp (transcodeRequest req).contentType) (initialWState hdrs)
      (codes.map RespOp.writeHeader)).enc = EncState.uninit :=
    enc_after_writeHeaders _ _ _
  show headerGet (writerWrite _ _ _).headers _ = _
  rw [writerWrite_uninit_headers _ _ _ henc, headerGet_set_self]

/-! ## C1: exactly one well-formed trailer frame -/

theorem writerWrite_logical (ct : String) (st : WState) (p : List Nat) :
    (writerWrite ct st p).logical = st.logical ++ p := by
  obtain ⟨headers, enc, out, status, logical⟩ := st
  cases enc
  · unfold writerWrite
    dsimp only
    split <;> rfl
  · rfl
  · rfl

theorem emitTrailers_logical (ct : String) (st : WState) :
    (emitTrailers ct st).logical =
      st.logical ++ 128 :: (uint32be (trailerBlock st.headers).length
        ++ trailerBlock st.headers) := by
  unfold emitTrailers
  dsimp only
  rw [writerWrite_logical, writerWrite_logical, writerWrite_logical]
  simp

theorem beValue_uint32be (n : Nat) (hn : n < 2 ^ 32) : beValue (uint32be n) = n := by
  simp only [beValue, uint32be, List.foldl]
  omega

/-- C1: for every gRPC-Web request and every behaviour of the wrapped
handler, `ServeHTTP` appends exactly one trailer frame to the logical
response body after everything the handler wrote (also when that is
nothing): one marker byte `0x80 = 128`, a 4-byte big-endian length whose
value is the byte length of the serialized trailer block, then exactly the
trailer block. (The length hypothesis reflects the 4-byte field's range;
`uint32(buf.Len())` truncates beyond it.) -/
theorem serve_appends_one_trailer_frame (req : Request)
    (handlerOps : Request → List RespOp) (respHeaders : Header)
    (hweb : IsGRPCWebRequest req = true)
    (hlen : (trailerBlock (applyOps (transcodeRequest req).contentType
        (initialWState respHeaders) (handlerOps (transcodeRequest req).req)).headers).length
      < 2 ^ 32) :
    ∃ w : WState,
      serveHTTP req handlerOps respHeaders
        = ServeResult.bridged (transcodeRequest req).req w ∧
      w.logical =
        (applyOps (transcodeRequest req).contentType (initialWState respHeaders)
            (handlerOps (transcodeRequest req).req)).logical ++
          128 :: (uint32be (trailerBlock (applyOps (transcodeRequest req).contentType
              (initialWState respHeaders) (handlerOps (transcodeRequest req).req)).headers).length
            ++ trailerBlock (applyOps (transcodeRequest req).contentType
              (initialWState respHeaders) (handlerOps (transcodeRequest req).req)).headers) ∧
      (uint32be (trailerBlock (applyOps (transcodeRequest req).contentType
          (initialWState respHeaders) (handlerOps (transcodeRequest req).req)).headers).length).length
        = 4 ∧
      beValue (uint32be (trailerBlock (applyOps (transcodeRequest req).contentType
          (initialWState respHeaders) (handlerOps (transcodeRequest req).req)).headers).length)
        = (trailerBlock (applyOps (transcodeRequest req).contentType
          (initialWState respHeaders) (handlerOps (transcodeRequest req).req)).headers).length := by
  refine ⟨emitTrailers (transcodeRequest req).contentType
      (applyOps (transcodeRequest req).contentType (initialWState respHeaders)
        (handlerOps (transcodeRequest req).req)), ?_, ?_, rfl, ?_⟩
  · simp [serveHTTP, hweb]
  · rw [emitTrailers_logical]
  · exact beValue_uint32be _ hlen

/-- C1 witness: the theorem applied to a concrete gRPC-Web request whose
handler writes nothing — `ServeHTTP` still produces a bridged response
carrying a trailer frame. -/
theorem serve_appends_one_trailer_frame_witness :
    ∃ w : WState,
      serveHTTP ⟨1, 1, [("Content-Type", ["application/grpc-web"])], .stream []⟩
          (fun _ => []) []
        = ServeResult.bridged
            (transcodeRequest
              ⟨1, 1, [("Content-Type", ["application/grpc-web"])], .stream []⟩).req w :=
  (serve_appends_one_trailer_frame
      ⟨1, 1, [("Content-Type", ["application/grpc-web"])], .stream []⟩
      (fun _ => []) [] (by decide) (by decide)).elim
    (fun w h => ⟨w, h.1⟩)

/-! ## C9: base64 round-trip -/

theorem b64val_b64char : ∀ v < 64, b64val (b64char v) = some v := by decide

theorem b64char_ne_pad : ∀ v < 64, ¬ b64char v = 61 := by decide

/-- C9: decoding the streaming text encoder's output recovers the input:
for every byte sequence, the standard-encoding base64 decode of its
standard-encoding base64 encode is exactly the original sequence. -/
theorem b64_roundtrip (bs : List Nat) (hb : ∀ b ∈ bs, b < 256) :
    decodeB64 (encodeB64 bs) = some bs := by
  induction bs using encodeB64.induct with
  | case1 a b c rest ih =>
    have ha : a < 256 := hb a (by simp)
    have hb2 : b < 256 := hb b (by simp)
    have hc : c < 256 := hb c (by simp)
    have ih2 := ih (fun x hx => hb x (by simp [hx]))
    have e1 : b64val (b64char (a / 4)) = some (a / 4) := b64val_b64char _ (by omega)
    have e2 : b64val (b64char (a % 4 * 16 + b / 16)) = some (a % 4 * 16 + b / 16) :=
      b64val_b64char _ (by omega)
    have e3 : b64val (b64char (b % 16 * 4 + c / 64)) = some (b % 16 * 4 + c / 64) :=
      b64val_b64char _ (by omega)
    have e4 : b64val (b64char (c % 64)) = some (c % 64) := b64val_b64char _ (by omega)
    have hp3 : ¬ b64char (b % 16 * 4 + c / 64) = 61 := b64char_ne_pad _ (by omega)
    have hp4 : ¬ b64char (c % 64) = 61 := b64char_ne_pad _ (by omega)
    simp only [encodeB64, decodeB64, e1, e2, e3, e4, if_neg hp3, if_neg hp4, ih2,
      Option.map_some]
    refine congrArg some ?_
    simp only [List.cons.injEq]
    exact ⟨by omega, by omega, by omega, trivial⟩
  | case2 a b =>
    have ha : a < 256 := hb a (by simp)
    have hb2 : b < 256 := hb b (by simp)
    have e1 : b64val (b64char (a / 4)) = some (a / 4) := b64val_b64char _ (by omega)
    have e2 : b64val (b64char (a % 4 * 16 + b / 16)) = some (a % 4 * 16 + b / 16) :=
      b64val_b64char _ (by omega)
    have e3 : b64val (b64char (b % 16 * 4)) = some (b % 16 * 4) :=
      b64val_b64char _ (by omega)
    have hp3 : ¬ b64char (b % 16 * 4) = 61 := b64char_ne_pad _ (by omega)
    simp only [encodeB64, decodeB64, e1, e2, e3, if_neg hp3, if_pos rfl]
    refine congrArg some ?_
    simp only [List.cons.injEq]
    exact ⟨by omega, by omega, trivial⟩
  | case3 a =>
    have ha : a < 256 := hb a (by simp)
    have e1 : b64val (b64char (a / 4)) = some (a / 4) := b64val_b64char _ (by omega)
    have e2 : b64val (b64char (a % 4 * 16)) = some (a % 4 * 16) :=
      b64val_b64char _ (by omega)
    simp only [encodeB64, decodeB64, e1, e2, if_pos rfl, if_pos (And.intro rfl rfl)]
    refine congrArg some ?_
    simp only [List.cons.injEq]
    exact ⟨by omega, trivial⟩
  | case4 => rfl

/-- C9 witness: the round-trip at the spec's concrete five-zero-byte
frame, whose encoding is `AAAAAAA=`. -/
theorem b64_roundtrip_witness :
    decodeB64 (encodeB64 [0, 0, 0, 0, 0]) = some [0, 0, 0, 0, 0] :=
  b64_roundtrip [0, 0, 0, 0, 0] (by decide)

/-! ## Order lemmas for the header-key sort -/

theorem charListLt_asymm :
    ∀ as bs, charListLt as bs = true → charListLt bs as = false := by
  intro as
  induction as with
  | nil =>
    intro bs h
    cases bs with
    | nil => simp [charListLt] at h
    | cons b bs2 => simp [charListLt]
  | cons a as2 ih =>
    intro bs h
    cases bs with
    | nil => simp [charListLt] at h
    | cons b bs2 =>
      simp only [charListLt] at h ⊢
      by_cases h1 : a.toNat < b.toNat
      · rw [if_neg (show ¬ b.toNat < a.toNat by omega), if_pos h1]
      · by_cases h2 : b.toNat < a.toNat
        · rw [if_neg h1, if_pos h2] at h
          exact absurd h (by simp)
        · rw [if_neg h1, if_neg h2] at h
          rw [if_neg h2, if_neg h1]
          exact ih bs2 h

theorem charListLt_co_trans :
    ∀ xs zs ys, charListLt xs zs = true →
      charListLt xs ys = true ∨ charListLt ys zs = true := by
  intro xs
  induction xs with
  | nil =>
    intro zs ys h
    cases zs with
    | nil => simp [charListLt] at h
    | cons c cs =>
      cases ys with
      | nil => right; simp [charListLt]
      | cons b bs => left; simp [charListLt]
  | cons a as2 ih =>
    intro zs ys h
    cases zs with
    | nil => simp [charListLt] at h
    | cons c cs =>
      cases ys with
      | nil => right; simp [charListLt]
      | cons b bs =>
        simp only [charListLt] at h ⊢
        by_cases hac : a.toNat < c.toNat
        · by_cases hab : a.toNat < b.toNat
          · left; rw [if_pos hab]
          · right; rw [if_pos (show b.toNat < c.toNat by omega)]
        · by_cases hca : c.toNat < a.toNat
          · rw [if_neg hac, if_pos hca] at h
            exact absurd h (by simp)
          · rw [if_neg hac, if_neg hca] at h
            by_cases hab : a.toNat < b.toNat
            · left; rw [if_pos hab]
            · by_cases hba : b.toNat < a.toNat
              · right; rw [if_pos (show b.toNat < c.toNat by omega)]
              · rcases ih cs bs h with h2 | h2
                · left
                  rw [if_neg hab, if_neg hba]
                  exact h2
                · right
                  rw [if_neg (show ¬ b.toNat < c.toNat by omega),
                    if_neg (show ¬ c.toNat < b.toNat by omega)]
                  exact h2

theorem keyLE_total : ∀ a b : String × List String, keyLE a b ∨ keyLE b a := by
  intro a b
  unfold keyLE strLt
  cases hx : charListLt b.1.data a.1.data
  · left; rfl
  · right; exact charListLt_asymm _ _ hx

theorem keyLE_trans :
    ∀ a b c : String × List String, keyLE a b → keyLE b c → keyLE a c := by
  intro a b c h1 h2
  unfold keyLE strLt at h1 h2 ⊢
  cases h3 : charListLt c.1.data a.1.data
  · rfl
  · rcases charListLt_co_trans c.1.data a.1.data b.1.data h3 with h4 | h4
    · rw [h4] at h2; exact absurd h2 (by simp)
    · rw [h4] at h1; exact absurd h1 (by simp)

theorem sortedKeyValues_sorted (h : Header) : List.Sorted keyLE (sortedKeyValues h) := by
  letI : IsTotal (String × List String) keyLE := ⟨keyLE_total⟩
  letI : IsTrans (String × List String) keyLE := ⟨fun a b c => keyLE_trans a b c⟩
  exact List.sorted_insertionSort keyLE h

theorem sortedKeyValues_perm (h : Header) : (sortedKeyValues h).Perm h :=
  List.perm_insertionSort keyLE h

/-! ## Key-set lemmas for `headerPut` -/

theorem keys_headerPut (h : Header) (ck : String) (vs : List String) :
    (headerPut h ck vs).map Prod.fst =
      (if ck ∈ h.map Prod.fst then h.map Prod.fst else h.map Prod.fst ++ [ck]) := by
  induction h with
  | nil => simp [headerPut]
  | cons kv rest ih =>
    obtain ⟨k0, vs0⟩ := kv
    by_cases hk : k0 = ck
    · subst hk
      simp [headerPut]
    · by_cases hm : ck ∈ rest.map Prod.fst
      · simp [headerPut, hk, ih, hm, Ne.symm hk]
      · simp [headerPut, hk, ih, hm, Ne.symm hk]

theorem nodup_keys_headerPut (h : Header) (ck : String) (vs : List String)
    (hnd : (h.map Prod.fst).Nodup) : ((headerPut h ck vs).map Prod.fst).Nodup := by
  rw [keys_headerPut]
  by_cases hm : ck ∈ h.map Prod.fst
  · rw [if_pos hm]; exact hnd
  · rw [if_neg hm]
    simp [List.nodup_append, hnd, hm]

theorem mem_headerPut_iff (h : Header) (ck : String) (vs : List String)
    (kv : String × List String) (hnd : (h.map Prod.fst).Nodup) :
    kv ∈ headerPut h ck vs ↔ (kv = (ck, vs) ∨ (kv ∈ h ∧ ¬ kv.1 = ck)) := by
  induction h with
  | nil => simp [headerPut]
  | cons kv0 rest ih =>
    obtain ⟨k0, vs0⟩ := kv0
    simp only [List.map_cons, List.nodup_cons] at hnd
    obtain ⟨hk0, hndrest⟩ := hnd
    by_cases hk : k0 = ck
    · subst hk
      simp only [headerPut, if_pos rfl]
      constructor
      · intro hm
        rcases List.mem_cons.mp hm with he | hm
        · left; exact he
        · right
          refine ⟨List.mem_cons_of_mem _ hm, fun he => hk0 ?_⟩
          rw [← he]
          exact List.mem_map_of_mem Prod.fst hm
      · intro hm
        rcases hm with he | ⟨hm, hne⟩
        · rw [he]; exact List.mem_cons_self _ _
        · rcases List.mem_cons.mp hm with he | hm
          · rw [he] at hne
            exact absurd rfl hne
          · exact List.mem_cons_of_mem _ hm
    · simp only [headerPut, if_neg hk]
      constructor
      · intro hm
        rcases List.mem_cons.mp hm with he | hm
        · right
          refine ⟨by rw [he]; exact List.mem_cons_self _ _, ?_⟩
          rw [he]
          exact hk
        · rcases (ih hndrest).mp hm with he | ⟨hm2, hne⟩
          · left; exact he
          · right; exact ⟨List.mem_cons_of_mem _ hm2, hne⟩
      · intro hm
        rcases hm with he | ⟨hm, hne⟩
        · exact List.mem_cons_of_mem _ ((ih hndrest).mpr (Or.inl he))
        · rcases List.mem_cons.mp hm with he | hm2
          · rw [he]; exact List.mem_cons_self _ _
          · exact List.mem_cons_of_mem _ ((ih hndrest).mpr (Or.inr ⟨hm2, hne⟩))

/-! ## The trailer-collection loop -/

theorem trailer_fold_spec (hd : Header) (names : List String) :
    ∀ acc : Header, (acc.map Prod.fst).Nodup →
      (∀ kv ∈ acc, kv.2 = [headerGetC hd kv.1] ∧ ¬ headerGetC hd kv.1 = "") →
      (((names.foldl (trailerFoldStep hd) acc).map Prod.fst).Nodup
        ∧ (∀ kv ∈ names.foldl (trailerFoldStep hd) acc,
            kv.2 = [headerGetC hd kv.1] ∧ ¬ headerGetC hd kv.1 = "")
        ∧ (∀ kv, kv ∈ names.foldl (trailerFoldStep hd) acc ↔
            (kv ∈ acc ∨ ((∃ n ∈ names, canonicalKey n = kv.1)
              ∧ ¬ headerGetC hd kv.1 = "" ∧ kv.2 = [headerGetC hd kv.1])))) := by
  induction names with
  | nil =>
    intro acc hnd hinv
    refine ⟨hnd, hinv, fun kv => ?_⟩
    simp
  | cons name rest ih =>
    intro acc hnd hinv
    by_cases hf : headerGet hd name = ""
    · have hstep : trailerFoldStep hd acc name = acc := by
        simp [trailerFoldStep, hf]
      rw [List.foldl_cons, hstep]
      obtain ⟨h1, h2, h3⟩ := ih acc hnd hinv
      refine ⟨h1, h2, fun kv => ?_⟩
      rw [h3 kv]
      constructor
      · rintro (hm | ⟨⟨n, hn, hcn⟩, hne, hv⟩)
        · left; exact hm
        · right; exact ⟨⟨n, List.mem_cons_of_mem _ hn, hcn⟩, hne, hv⟩
      · rintro (hm | ⟨⟨n, hn, hcn⟩, hne, hv⟩)
        · left; exact hm
        · rcases List.mem_cons.mp hn with he | hn2
          · exfalso
            apply hne
            rw [← hcn, he]
            exact (headerGet_eq_getC hd name).symm.trans hf
          · right; exact ⟨⟨n, hn2, hcn⟩, hne, hv⟩
    · have hgc : headerGetC hd (canonicalKey name) = headerGet hd name :=
        (headerGet_eq_getC hd name).symm
      have hstep : trailerFoldStep hd acc name
          = headerPut acc (canonicalKey name) [headerGet hd name] := by
        simp [trailerFoldStep, hf, headerSet]
      rw [List.foldl_cons, hstep]
      have hnd2 : ((headerPut acc (canonicalKey name) [headerGet hd name]).map
          Prod.fst).Nodup := nodup_keys_headerPut _ _ _ hnd
      have hinv2 : ∀ kv ∈ headerPut acc (canonicalKey name) [headerGet hd name],
          kv.2 = [headerGetC hd kv.1] ∧ ¬ headerGetC hd kv.1 = "" := by
        intro kv hm
        rcases (mem_headerPut_iff _ _ _ _ hnd).mp hm with he | ⟨hm2, _⟩
        · rw [he]
          dsimp only
          rw [hgc]
          exact ⟨rfl, hf⟩
        · exact hinv kv hm2
      obtain ⟨h1, h2, h3⟩ := ih _ hnd2 hinv2
      refine ⟨h1, h2, fun kv => ?_⟩
      rw [h3 kv]
      constructor
      · rintro (hm | ⟨⟨n, hn, hcn⟩, hne, hv⟩)
        · rcases (mem_headerPut_iff _ _ _ _ hnd).mp hm with he | ⟨hm2, _⟩
          · right
            refine ⟨⟨name, List.mem_cons_self _ _, ?_⟩, ?_, ?_⟩
            · rw [he]
            · rw [he]; dsimp only; rw [hgc]; exact hf
            · rw [he]; dsimp only; rw [hgc]
          · left; exact hm2
        · right; exact ⟨⟨n, List.mem_cons_of_mem _ hn, hcn⟩, hne, hv⟩
      · rintro (hm | ⟨⟨n, hn, hcn⟩, hne, hv⟩)
        · by_cases hkc : kv.1 = canonicalKey name
          · left
            apply (mem_headerPut_iff _ _ _ _ hnd).mpr
            left
            obtain ⟨hv2, _⟩ := hinv kv hm
            rw [Prod.ext_iff]
            exact ⟨hkc, by rw [hv2, hkc, hgc]⟩
          · left
            exact (mem_headerPut_iff _ _ _ _ hnd).mpr (Or.inr ⟨hm, hkc⟩)
        · rcases List.mem_cons.mp hn with he | hn2
          · have hkc : kv.1 = canonicalKey name := by rw [← hcn, he]
            left
            apply (mem_headerPut_iff _ _ _ _ hnd).mpr
            left
            rw [Prod.ext_iff]
            exact ⟨hkc, by rw [hv, hkc, hgc]⟩
          · right; exact ⟨⟨n, hn2, hcn⟩, hne, hv⟩

theorem extractTrailers_spec (h : Header) :
    ((extractTrailers h).map Prod.fst).Nodup
    ∧ (∀ kv, kv ∈ extractTrailers h ↔
        ((∃ n ∈ declaredTrailerNames h, canonicalKey n = kv.1)
          ∧ ¬ headerGetC h kv.1 = "" ∧ kv.2 = [headerGetC h kv.1])) := by
  obtain ⟨h1, _, h3⟩ :=
    trailer_fold_spec h (declaredTrailerNames h) [] (by simp) (by simp)
  refine ⟨h1, fun kv => ?_⟩
  rw [extractTrailers, h3 kv]
  simp

theorem flatMap_value_lines_length (f : String → String → String) :
    ∀ l : Header, (∀ kv ∈ l, kv.2.length = 1) →
      (l.flatMap (fun kv => kv.2.map (f kv.1))).length = l.length := by
  intro l
  induction l with
  | nil => intro _; rfl
  | cons kv rest ih =>
    intro hone
    simp only [List.flatMap_cons, List.length_append, List.length_map, List.length_cons]
    rw [hone kv (List.mem_cons_self _ _), ih (fun x hx => hone x (List.mem_cons_of_mem _ hx))]
    omega

/-! ## C7: trailer-line collection and ordering -/

/-- C7 counterexample: with trailer names declared in the order
`Grpc-Status`, `Grpc-Message` and both trailers non-empty, the serialized
block puts the `Grpc-Message` line first — `http.Header.Write` sorts
entries by key, so the lines do not follow declaration order. -/
theorem trailer_lines_not_in_declaration_order :
    declaredTrailerNames
        [("Trailer", ["Grpc-Status", "Grpc-Message"]),
         ("Grpc-Status", ["0"]), ("Grpc-Message", ["m"])]
      = ["Grpc-Status", "Grpc-Message"]
    ∧ headerWriteLines (extractTrailers
        [("Trailer", ["Grpc-Status", "Grpc-Message"]),
         ("Grpc-Status", ["0"]), ("Grpc-Message", ["m"])])
      = ["Grpc-Message: m\r\n", "Grpc-Status: 0\r\n"]
    ∧ ¬ headerWriteLines (extractTrailers
        [("Trailer", ["Grpc-Status", "Grpc-Message"]),
         ("Grpc-Status", ["0"]), ("Grpc-Message", ["m"])])
      = ["Grpc-Status: 0\r\n", "Grpc-Message: m\r\n"] := by
  refine ⟨by decide, by decide, by decide⟩

/-- C7 (amended): for each header name listed in the trailer declaration
whose named header is non-empty, exactly one `Name: Value\r\n` line is
appended (one per distinct canonical name — a name declared twice yields
one line), and missing-or-empty named trailers are silently skipped; the
lines appear sorted by canonical header name (the order Go's
`Header.Write` produces), not in declaration order. -/
theorem trailer_block_structure (h : Header) :
    (((extractTrailers h).map Prod.fst).Nodup)
    ∧ (∀ kv, kv ∈ extractTrailers h ↔
        ((∃ n ∈ declaredTrailerNames h, canonicalKey n = kv.1)
          ∧ ¬ headerGetC h kv.1 = "" ∧ kv.2 = [headerGetC h kv.1]))
    ∧ List.Sorted keyLE (sortedKeyValues (extractTrailers h))
    ∧ (sortedKeyValues (extractTrailers h)).Perm (extractTrailers h)
    ∧ (headerWriteLines (extractTrailers h)).length = (extractTrailers h).length := by
  obtain ⟨h1, h2⟩ := extractTrailers_spec h
  refine ⟨h1, h2, sortedKeyValues_sorted _, sortedKeyValues_perm _, ?_⟩
  rw [headerWriteLines]
  have hone : ∀ kv ∈ sortedKeyValues (extractTrailers h), kv.2.length = 1 := by
    intro kv hm
    have hm2 : kv ∈ extractTrailers h := (sortedKeyValues_perm _).mem_iff.mp hm
    obtain ⟨_, _, hv⟩ := (h2 kv).mp hm2
    rw [hv]
    rfl
  have hlen := flatMap_value_lines_length
    (fun k v => k ++ ": " ++ cleanHeaderValue v ++ "\r\n")
    (sortedKeyValues (extractTrailers h)) hone
  rw [(sortedKeyValues_perm (extractTrailers h)).length_eq] at hlen
  exact hlen

end Grpcweb
